import Mathlib

/-
Verification development for the chess bot in src/bot.py.

The bot is a thin wrapper around the python-chess library.  The shallow
embedding below models exactly what the bot code observes about a
position: the piece counts per side (used by evaluate_board via
board.pieces), the side to move (board.turn), whether the game is over
(board.is_game_over), and the list of legal moves together with the
positions they lead to (board.legal_moves / board.push / board.pop).
A position is therefore a finitely branching tree whose edges carry the
UCI string of the move, ordered as python-chess enumerates legal moves.

Scores: the Python code mixes integer evaluations with the float
sentinels float("-inf") and float("inf"); comparisons, max and min on
these values follow the extended integer order, modelled by XScore.

Exceptions: several paths of the Python code raise (subscripting the
implicit None return of the maximizing branch, calling .uci() on None,
chess.Move.from_uci on malformed input).  These are modelled by explicit
outcome constructors / Option results, as documented at each definition.
-/

/-- The six chess piece types, as in the python-chess constants
chess.PAWN .. chess.KING. -/
inductive PieceType where
  | pawn | knight | bishop | rook | queen | king
deriving DecidableEq

/-- Number of pieces of each type one side has on the board: the sizes of
the square sets board.pieces(piece_type, color). -/
structure PieceCounts where
  pawn : Nat
  knight : Nat
  bishop : Nat
  rook : Nat
  queen : Nat
  king : Nat
deriving DecidableEq

/-- Look up the count of one piece type. -/
def PieceCounts.count (c : PieceCounts) : PieceType → Nat
  | .pawn => c.pawn
  | .knight => c.knight
  | .bishop => c.bishop
  | .rook => c.rook
  | .queen => c.queen
  | .king => c.king

/-- A chess position as observed by the bot: white and black piece
counts, the side to move (true = White, as board.turn), whether
board.is_game_over() holds, and the legal moves in python-chess
enumeration order, each labelled with its UCI string and paired with the
position it leads to (the effect of board.push). -/
inductive Board where
  | node (white black : PieceCounts) (turn gameOver : Bool)
      (children : List (String × Board))

/-- White piece counts of a position. -/
def Board.white : Board → PieceCounts
  | .node w _ _ _ _ => w

/-- Black piece counts of a position. -/
def Board.black : Board → PieceCounts
  | .node _ b _ _ _ => b

/-- Side to move, true = White (board.turn). -/
def Board.turn : Board → Bool
  | .node _ _ t _ _ => t

/-- Whether board.is_game_over() holds. -/
def Board.gameOver : Board → Bool
  | .node _ _ _ g _ => g

/-- Legal moves in python-chess enumeration order, with resulting
positions. -/
def Board.children : Board → List (String × Board)
  | .node _ _ _ _ cs => cs

/-- Size of board.pieces(pt, color): piece count for one side, with
color true = chess.WHITE as in python-chess. -/
def piecesCount (t : Board) (pt : PieceType) (color : Bool) : Nat :=
  if color then t.white.count pt else t.black.count pt

/-- The piece_values dictionary of Bot.evaluate_board (src/bot.py lines
128-129): pawn=1, knight=3, bishop=3, rook=5, queen=9, king=0, in
insertion order. -/
def piece_values : List (PieceType × Int) :=
  [(PieceType.pawn, 1), (PieceType.knight, 3), (PieceType.bishop, 3),
   (PieceType.rook, 5), (PieceType.queen, 9), (PieceType.king, 0)]

/-- Bot.evaluate_board (src/bot.py lines 122-134): iterate over the
piece_values items, adding the white count times the value and
subtracting the black count times the value, starting from 0. -/
def evaluate_board (t : Board) : Int :=
  piece_values.foldl
    (fun value pv =>
      value + (piecesCount t pv.1 true : Int) * pv.2
        - (piecesCount t pv.1 false : Int) * pv.2) 0

/-- Scores as the Python code handles them: integer evaluations together
with the float sentinels float("-inf") and float("inf"). -/
inductive XScore where
  | negInf
  | fin (v : Int)
  | posInf
deriving DecidableEq

/-- The Python <= on these values (extended integer order). -/
def XScore.le : XScore → XScore → Bool
  | .negInf, .negInf => true
  | .negInf, .fin _ => true
  | .negInf, .posInf => true
  | .fin _, .negInf => false
  | .fin a, .fin b => decide (a ≤ b)
  | .fin _, .posInf => true
  | .posInf, .negInf => false
  | .posInf, .fin _ => false
  | .posInf, .posInf => true

/-- The Python < on these values: for this total order, a < b iff not
(b <= a). -/
def XScore.lt (a b : XScore) : Bool :=
  ! XScore.le b a

/-- The Python builtin max on two scores (returns the first argument
when equal). -/
def XScore.max (a b : XScore) : XScore :=
  if XScore.le b a then a else b

/-- The Python builtin min on two scores (returns the first argument
when equal). -/
def XScore.min (a b : XScore) : XScore :=
  if XScore.le a b then a else b

/-- The mutable board that Bot.minimax borrows: the current position
together with the stack of positions saved by board.push and restored by
board.pop. -/
structure BState where
  cur : Board
  hist : List Board

/-- board.push(move): save the current position on the move stack and
move to the position the move leads to. -/
def pushB (bs : BState) (t : Board) : BState :=
  ⟨t, bs.cur :: bs.hist⟩

/-- board.pop(): restore the most recently pushed position.  python-chess
raises on an empty move stack; every pop in the bot follows a matching
push, so the empty case below is never reached and is given the identity
behaviour. -/
def popB (bs : BState) : BState :=
  match bs.hist with
  | [] => bs
  | h :: rest => ⟨h, rest⟩

/-- Outcome of one call to Bot.minimax.
ok models a normal return of the pair (best_move, eval);
pyNone models the implicit Python return None, reached when the
maximizing loop is skipped or exited by break (the branch has no return
statement after its loop, src/bot.py line 105 sits inside the loop);
exn models an exception propagating out of the call: subscripting a
None result with [1] raises TypeError, and the exception unwinds before
the pending board.pop() of the caller runs. -/
inductive MMOut where
  | ok (best : Option String) (score : XScore)
  | pyNone
  | exn
deriving DecidableEq

/-- The maximizing for-loop of Bot.minimax (src/bot.py lines 94-105).
The body pushes the move, recurses, pops, updates max_eval and
best_move on strict improvement (line 99), stores max(alpha, cur_eval)
into the local variable alph (line 102, a dead store: alpha itself is
never changed), and then either breaks when beta <= alpha (line 103,
falling through to the end of the function, an implicit return None) or
executes the return statement at line 105, which is indented inside the
loop body, so no second iteration is ever reached and the tail of the
move list is never consulted. -/
def maxLoopAux (recur : BState → BState × MMOut) :
    List (String × Board) → BState → XScore → Option String →
    XScore → XScore → BState × MMOut
  | [], bs, _, _, _, _ => (bs, .pyNone)
  | (move, t) :: _rest, bs, max_eval, best_move, alpha, beta =>
    match recur (pushB bs t) with
    | (bs2, .ok _ cur_eval) =>
      let bs3 := popB bs2
      let acc := if XScore.lt max_eval cur_eval
        then (cur_eval, some move) else (max_eval, best_move)
      let _alph := XScore.max alpha cur_eval
      if XScore.le beta alpha then (bs3, .pyNone)
      else (bs3, .ok acc.2 acc.1)
    | (bs2, .pyNone) => (bs2, .exn)
    | (bs2, .exn) => (bs2, .exn)

/-- The minimizing for-loop of Bot.minimax (src/bot.py lines 110-119):
push, recurse with the current beta, pop, update min_eval and best_move
on strict improvement, update beta to min(beta, cur_eval), break when
beta <= alpha, and after the loop return (best_move, min_eval) at line
120, which sits outside the loop and is also reached after a break. -/
def minLoopAux (recur : BState → XScore → BState × MMOut) :
    List (String × Board) → BState → XScore → Option String →
    XScore → XScore → BState × MMOut
  | [], bs, min_eval, best_move, _, _ => (bs, .ok best_move min_eval)
  | (move, t) :: rest, bs, min_eval, best_move, alpha, beta =>
    match recur (pushB bs t) beta with
    | (bs2, .ok _ cur_eval) =>
      let bs3 := popB bs2
      let acc := if XScore.lt cur_eval min_eval
        then (cur_eval, some move) else (min_eval, best_move)
      let beta2 := XScore.min beta cur_eval
      if XScore.le beta2 alpha then (bs3, .ok acc.2 acc.1)
      else minLoopAux recur rest bs3 acc.1 acc.2 alpha beta2
    | (bs2, .pyNone) => (bs2, .exn)
    | (bs2, .exn) => (bs2, .exn)

/-- Bot.minimax (src/bot.py lines 88-120).  Depth 0 or a game-over
position returns (None, evaluate_board(board)).  The maximizing branch
runs maxLoopAux with max_eval = -inf and the recursion at depth - 1 with
alpha and beta passed through unchanged; the minimizing branch runs
minLoopAux with min_eval = +inf, threading the updated beta into later
recursive calls.  The returned BState is the state of the borrowed board
at the moment the call returns or the exception escapes. -/
def minimax : Nat → BState → XScore → XScore → Bool → BState × MMOut
  | 0, bs, _, _, _ => (bs, .ok none (.fin (evaluate_board bs.cur)))
  | depth + 1, bs, alpha, beta, is_maximizing =>
    if bs.cur.gameOver then (bs, .ok none (.fin (evaluate_board bs.cur)))
    else if is_maximizing then
      maxLoopAux (fun b2 => minimax depth b2 alpha beta false)
        bs.cur.children bs .negInf none alpha beta
    else
      minLoopAux (fun b2 beta2 => minimax depth b2 alpha beta2 true)
        bs.cur.children bs .posInf none alpha beta

/-- Bot.next_move (src/bot.py lines 64-83): call minimax on the board
with max_depth = 4, alpha = -inf, beta = +inf and is_maximizing = True,
unconditionally, and convert the returned move to its UCI string.  The
result none models an unhandled exception: either the tuple unpacking of
a None result (TypeError) or move.uci() on move = None (AttributeError,
which happens whenever minimax hits its depth-0-or-game-over base case
at the root). -/
def next_move (t : Board) : Option String :=
  match (minimax 4 ⟨t, []⟩ .negInf .posInf true).2 with
  | .ok (some move) _ => some move
  | _ => none

/-- The legal moves of a position as python-chess Move values, rendered
by their canonical UCI strings: the elements of board.legal_moves. -/
def legalMoves (t : Board) : List String :=
  t.children.map Prod.fst

/-- File letter of a square name, a to h (python-chess SQUARE_NAMES are
lowercase, and the lookup is case sensitive). -/
def isFileChar (c : Char) : Bool :=
  decide ('a' ≤ c) && decide (c ≤ 'h')

/-- Rank digit of a square name, 1 to 8. -/
def isRankChar (c : Char) : Bool :=
  decide ('1' ≤ c) && decide (c ≤ '8')

/-- Membership in python-chess PIECE_SYMBOLS (ignoring the None slot):
p, n, b, r, q, k, lowercase only since list lookup is case sensitive. -/
def isPieceSym (c : Char) : Bool :=
  decide (c = 'p') || decide (c = 'n') || decide (c = 'b') ||
  decide (c = 'r') || decide (c = 'q') || decide (c = 'k')

/-- chess.Move.from_uci, modelled on the python-chess implementation the
bot calls.  A Move is represented by its canonical UCI string, which is
a faithful proxy for python-chess Move equality: distinct (from, to,
promotion, drop) data print to distinct canonical strings.  Returns none
where python-chess raises InvalidMoveError: a string that is not the
null move 0000, a four character drop with a bad piece letter or square,
a four or five character move with bad square names or a bad promotion
letter, a move whose origin equals its destination, or any other length.
A four character string whose second character is the at sign is parsed
as a drop (canonical form uppercases the piece letter); otherwise four
characters parse as origin and destination squares, five add a
promotion letter. -/
def from_uci (uci : String) : Option String :=
  if uci = "0000" then some uci
  else
    match uci.data with
    | [c0, c1, c2, c3] =>
      if c1 = '@' then
        if isPieceSym c0.toLower && isFileChar c2 && isRankChar c3 then
          some (String.mk [c0.toUpper, c1, c2, c3])
        else none
      else
        if isFileChar c0 && isRankChar c1 && isFileChar c2 && isRankChar c3 then
          if c0 = c2 && c1 = c3 then none else some uci
        else none
    | [c0, c1, c2, c3, c4] =>
      if isFileChar c0 && isRankChar c1 && isFileChar c2 &&
          isRankChar c3 && isPieceSym c4 then
        if c0 = c2 && c1 = c3 then none else some uci
      else none
    | _ => none

/-- Bot.check_move_is_legal (src/bot.py lines 50-62): parse the
concatenation of the two arguments with chess.Move.from_uci and test
membership in board.legal_moves.  The result none models the
InvalidMoveError that from_uci raises on a malformed string and that
the bot does not catch; some b is the boolean the method returns when
parsing succeeds. -/
def check_move_is_legal (t : Board)
    (initial_position new_position : String) : Option Bool :=
  (from_uci (initial_position ++ new_position)).map
    (fun mv => (legalMoves t).contains mv)

/-- Modelled from the spec: pick the best entry of a list of move/score
pairs, overwriting only on strict improvement so that the first seen
move wins ties, starting from the given sentinel score and no move. -/
def brute_pick (better : XScore → XScore → Bool) (init : XScore)
    (evals : List (String × XScore)) : Option String × XScore :=
  evals.foldl (fun acc p => if better p.2 acc.2 then (some p.1, p.2) else acc)
    (none, init)

/-- Modelled from the spec: brute-force minimax without pruning, the
comparison point of the alpha-beta equivalence property.  At depth 0 or
a terminal position it returns (none, evaluate_board); otherwise it
scores every child at depth - 1 with the orientation flipped and takes
the maximum (maximizing) or minimum (minimizing) with first-seen
tie-breaking. -/
def brute_minimax : Nat → Board → Bool → Option String × XScore
  | 0, t, _ => (none, .fin (evaluate_board t))
  | depth + 1, t, maximizing =>
    if t.gameOver then (none, .fin (evaluate_board t))
    else
      let evals := t.children.map
        (fun c => (c.1, (brute_minimax depth c.2 (!maximizing)).2))
      if maximizing then
        brute_pick (fun cand best => XScore.lt best cand) .negInf evals
      else
        brute_pick (fun cand best => XScore.lt cand best) .posInf evals

/-- The chess fact the search relies on: a position that is not game
over has at least one legal move (in chess, having no legal move means
checkmate or stalemate, both of which make is_game_over true), at every
node of the game tree. -/
inductive BoardInv : Board → Prop where
  | node : ∀ (w b : PieceCounts) (tn go : Bool)
      (cs : List (String × Board)),
      (go = false → cs ≠ []) →
      (∀ p ∈ cs, BoardInv p.2) →
      BoardInv (.node w b tn go cs)

/-- Full starting material for one side: eight pawns, two knights, two
bishops, two rooks, one queen, one king. -/
def stdCounts : PieceCounts :=
  ⟨8, 2, 2, 2, 1, 1⟩

/-- Starting material minus one rook. -/
def rookDownCounts : PieceCounts :=
  ⟨8, 2, 2, 1, 1, 1⟩

/-- Starting material minus one knight. -/
def knightDownCounts : PieceCounts :=
  ⟨8, 1, 2, 2, 1, 1⟩

/-- A position after the first example move: material even, so
evaluate_board gives 0. -/
def exA1 : Board :=
  .node stdCounts stdCounts false false []

/-- A position after the second example move: Black is a rook down, so
evaluate_board gives 5. -/
def exA2 : Board :=
  .node stdCounts rookDownCounts false false []

/-- A White-to-move position with two legal moves: the first leads to
even material (score 0), the second wins a rook (score 5).  Any real
position where the first enumerated move is quiet and a later move
captures an undefended rook instantiates this shape. -/
def exA : Board :=
  .node stdCounts stdCounts true false [( "a1", exA1), ( "a2", exA2)]

/-- A terminal position reached by the first move of exB: White ends a
knight up, evaluate_board gives 3. -/
def exB1 : Board :=
  .node stdCounts knightDownCounts true true []

/-- A terminal position reached by the second move of exB: White ends a
knight down, evaluate_board gives -3. -/
def exB2 : Board :=
  .node knightDownCounts stdCounts true true []

/-- A Black-to-move position (turn = false) with two legal moves leading
to terminal positions scoring +3 and -3 for White respectively.  A
side-aware root would minimize here and pick the second move. -/
def exB : Board :=
  .node stdCounts stdCounts false false [( "m1", exB1), ( "m2", exB2)]

/-- A checkmate position (game over) with even material: Black is mated
but evaluate_board still gives 0. -/
def mateChild : Board :=
  .node stdCounts stdCounts false true []

/-- A quiet position where White has won a rook: evaluate_board gives 5
and the game goes on. -/
def winChild : Board :=
  .node stdCounts rookDownCounts false false []

/-- A White-to-move position one ply from checkmate: the first move
mates with even material, the second merely wins a rook. -/
def exM : Board :=
  .node stdCounts stdCounts true false
    [( "mate", mateChild), ( "grab", winChild)]

/-- An already-terminal position (game over, no legal moves). -/
def exTerm : Board :=
  .node stdCounts stdCounts true true []

/-- A small non-terminal position whose single move ends the game, used
to instantiate theorems with BoardInv hypotheses. -/
def exW : Board :=
  .node stdCounts stdCounts true false [( "w1", mateChild)]

/-- A position after any opening move from the standard starting
position: all thirty-two pieces are still on the board. -/
def startChild : Board :=
  .node stdCounts stdCounts false false []

/-- The standard chess starting position as the bot observes it.  The
twenty legal moves are listed in python-chess enumeration order:
generate_pseudo_legal_moves scans non-pawn pieces from square h1 down to
a1 (yielding the g1 knight to h3 then f3, and the b1 knight to c3 then
a3), finds no castling or pawn captures, then yields pawn single pushes
by destination from h3 down to a3 and double pushes from h4 down to a4;
the legal-move filter removes nothing here.  No first move changes
material, so every child carries full material for both sides. -/
def startBoard : Board :=
  .node stdCounts stdCounts true false
    [( "g1h3", startChild), ( "g1f3", startChild),
     ( "b1c3", startChild), ( "b1a3", startChild),
     ( "h2h3", startChild), ( "g2g3", startChild),
     ( "f2f3", startChild), ( "e2e3", startChild),
     ( "d2d3", startChild), ( "c2c3", startChild),
     ( "b2b3", startChild), ( "a2a3", startChild),
     ( "h2h4", startChild), ( "g2g4", startChild),
     ( "f2f4", startChild), ( "e2e4", startChild),
     ( "d2d4", startChild), ( "c2c4", startChild),
     ( "b2b4", startChild), ( "a2a4", startChild)]

/-- Popping immediately after a push restores the original board
state. -/
theorem popB_pushB (bs : BState) (t : Board) : popB (pushB bs t) = bs :=
  rfl

/-- A score strictly above the minus-infinity sentinel is not the
sentinel. -/
theorem xs_lt_negInf_iff (b : XScore) :
    XScore.lt .negInf b = true ↔ b ≠ .negInf := by
  cases b <;> simp [XScore.lt, XScore.le]

/-- Every finite score is strictly above minus infinity. -/
theorem xs_negInf_lt_fin (v : Int) : XScore.lt .negInf (.fin v) = true :=
  rfl

/-- Every finite score is strictly below plus infinity. -/
theorem xs_fin_lt_posInf (v : Int) : XScore.lt (.fin v) .posInf = true :=
  rfl

/-- A score strictly above minus infinity does not compare at or below
it. -/
theorem xs_le_negInf_eq_false (b : XScore)
    (h : XScore.lt .negInf b = true) : XScore.le b .negInf = false := by
  cases b <;> simp_all [XScore.lt, XScore.le]

/-- Taking the minimum with a finite score keeps a bound strictly above
minus infinity. -/
theorem xs_min_fin_lt (b : XScore) (v : Int)
    (h : XScore.lt .negInf b = true) :
    XScore.lt .negInf (XScore.min b (.fin v)) = true := by
  cases b <;> (unfold XScore.min) <;> split <;>
    simp_all [XScore.lt, XScore.le]

/-- If the recursion restores the board on every non-raising call, one
pass of the maximizing loop returns the board it was handed whenever it
does not propagate an exception. -/
theorem maxLoopAux_state (recur : BState → BState × MMOut)
    (hrec : ∀ b, (recur b).2 ≠ .exn → (recur b).1 = b) :
    ∀ (cs : List (String × Board)) (bs : BState) (me : XScore)
      (bm : Option String) (alpha beta : XScore),
      (maxLoopAux recur cs bs me bm alpha beta).2 ≠ .exn →
      (maxLoopAux recur cs bs me bm alpha beta).1 = bs := by
  intro cs bs me bm alpha beta h
  cases cs with
  | nil => simp [maxLoopAux]
  | cons head rest =>
    obtain ⟨move, t⟩ := head
    rcases hr : recur (pushB bs t) with ⟨bs2, out⟩
    cases out with
    | ok b s =>
      have hbs2 : bs2 = pushB bs t := by
        have h2 := hrec (pushB bs t)
        rw [hr] at h2
        exact h2 (by simp)
      subst hbs2
      simp only [maxLoopAux, hr] at h ⊢
      split <;> simp [popB_pushB]
    | pyNone =>
      simp only [maxLoopAux, hr] at h
      simp at h
    | exn =>
      simp only [maxLoopAux, hr] at h
      simp at h

/-- If the recursion restores the board on every non-raising call, the
minimizing loop returns the board it was handed whenever it does not
propagate an exception. -/
theorem minLoopAux_state (recur : BState → XScore → BState × MMOut)
    (hrec : ∀ b beta2, (recur b beta2).2 ≠ .exn → (recur b beta2).1 = b) :
    ∀ (cs : List (String × Board)) (bs : BState) (me : XScore)
      (bm : Option String) (alpha beta : XScore),
      (minLoopAux recur cs bs me bm alpha beta).2 ≠ .exn →
      (minLoopAux recur cs bs me bm alpha beta).1 = bs := by
  intro cs
  induction cs with
  | nil => intro bs me bm alpha beta h; simp [minLoopAux]
  | cons head rest ih =>
    intro bs me bm alpha beta h
    obtain ⟨move, t⟩ := head
    rcases hr : recur (pushB bs t) beta with ⟨bs2, out⟩
    cases out with
    | ok b s =>
      have hbs2 : bs2 = pushB bs t := by
        have h2 := hrec (pushB bs t) beta
        rw [hr] at h2
        exact h2 (by simp)
      subst hbs2
      simp only [minLoopAux, hr, popB_pushB] at h ⊢
      by_cases hc : XScore.le (XScore.min beta s) alpha = true
      · simp [hc]
      · simp only [hc, if_false, Bool.false_eq_true, ite_false] at h ⊢
        exact ih _ _ _ _ _ h
    | pyNone =>
      simp only [minLoopAux, hr] at h
      simp at h
    | exn =>
      simp only [minLoopAux, hr] at h
      simp at h

/-- Whenever a minimax call returns (normally or with the implicit
Python None) rather than letting an exception escape, the board it
borrowed is back in exactly the state it had on entry: every push has
been reversed by its matching pop. -/
theorem minimax_state :
    ∀ (d : Nat) (bs : BState) (alpha beta : XScore) (m : Bool),
      (minimax d bs alpha beta m).2 ≠ .exn →
      (minimax d bs alpha beta m).1 = bs := by
  intro d
  induction d with
  | zero => intro bs alpha beta m h; simp [minimax]
  | succ n ih =>
    intro bs alpha beta m h
    by_cases hgo : bs.cur.gameOver
    · simp [minimax, hgo]
    · cases m with
      | true =>
        simp only [minimax, hgo, if_false, if_true, Bool.false_eq_true,
          ite_false, ite_true] at h ⊢
        exact maxLoopAux_state _ (fun b hb => ih b alpha beta false hb)
          _ _ _ _ _ _ h
      | false =>
        simp only [minimax, hgo, Bool.false_eq_true, ite_false,
          ite_true] at h ⊢
        exact minLoopAux_state _ (fun b b2 hb => ih b alpha b2 true hb)
          _ _ _ _ _ _ h

/-- At a game-over position minimax takes its base case at every depth
and orientation: it returns no move and the material evaluation of that
very position, with the board untouched. -/
theorem minimax_gameOver_eval (d : Nat) (bs : BState)
    (alpha beta : XScore) (m : Bool) (h : bs.cur.gameOver = true) :
    minimax d bs alpha beta m = (bs, .ok none (.fin (evaluate_board bs.cur))) := by
  cases d with
  | zero => simp [minimax]
  | succ n => simp [minimax, h]

/-- A node of an invariant tree that is not game over has at least one
legal move. -/
theorem BoardInv.children_ne (t : Board) (h : BoardInv t)
    (hgo : t.gameOver = false) : t.children ≠ [] := by
  cases h with
  | node w b tn go cs h1 h2 => exact h1 hgo

/-- Children of an invariant tree are invariant trees. -/
theorem BoardInv.child (t : Board) (h : BoardInv t) (p : String × Board)
    (hp : p ∈ t.children) : BoardInv p.2 := by
  cases h with
  | node w b tn go cs h1 h2 => exact h2 p hp

/-- Minimizing-loop invariant: once min_eval is finite and best_move is
set, if every recursive call returns its board unchanged with a finite
score, the loop terminates normally with a move and a finite score and
the board unchanged, provided alpha is the minus-infinity sentinel and
beta stays strictly above it (so the prune test never fires). -/
theorem minLoopAux_fin (recur : BState → XScore → BState × MMOut)
    (hrec : ∀ b beta2, BoardInv b.cur → XScore.lt .negInf beta2 = true →
      ∃ bm v, recur b beta2 = (b, .ok bm (.fin v))) :
    ∀ (cs : List (String × Board)) (bs : BState) (m0 : String) (v0 : Int)
      (beta : XScore),
      (∀ p ∈ cs, BoardInv p.2) → XScore.lt .negInf beta = true →
      ∃ m v, minLoopAux recur cs bs (.fin v0) (some m0) .negInf beta =
        (bs, .ok (some m) (.fin v)) := by
  intro cs
  induction cs with
  | nil => intro bs m0 v0 beta _ _; exact ⟨m0, v0, rfl⟩
  | cons head rest ih =>
    intro bs m0 v0 beta hinv hbeta
    obtain ⟨move, t⟩ := head
    obtain ⟨bm, v, hr⟩ :=
      hrec (pushB bs t) beta (hinv (move, t) (by simp)) hbeta
    have hmin : XScore.lt .negInf (XScore.min beta (.fin v)) = true :=
      xs_min_fin_lt beta v hbeta
    have hle : XScore.le (XScore.min beta (.fin v)) .negInf = false :=
      xs_le_negInf_eq_false _ hmin
    simp only [minLoopAux, hr, popB_pushB, hle, Bool.false_eq_true,
      ite_false]
    by_cases hlt : XScore.lt (.fin v) (.fin v0) = true
    · simp only [if_pos hlt]
      exact ih bs move v _ (fun p hp => hinv p (by simp [hp])) hmin
    · simp only [if_neg hlt]
      exact ih bs m0 v0 _ (fun p hp => hinv p (by simp [hp])) hmin

/-- With alpha at the minus-infinity sentinel (which the source never
updates: line 102 of src/bot.py stores the would-be update into the
unused local alph) and beta strictly above it, a minimax call on an
invariant game tree always returns normally: the board comes back
unchanged, the score is finite, and when the depth is positive and the
position is not game over a best move has been selected. -/
theorem minimax_negInf_ok :
    ∀ (d : Nat) (bs : BState) (beta : XScore) (m : Bool),
      BoardInv bs.cur → XScore.lt .negInf beta = true →
      ∃ bm v, minimax d bs .negInf beta m = (bs, .ok bm (.fin v)) ∧
        (bs.cur.gameOver = false → 0 < d → ∃ mv, bm = some mv) := by
  intro d
  induction d with
  | zero =>
    intro bs beta m _ _
    exact ⟨none, evaluate_board bs.cur, rfl,
      fun _ h => absurd h (by simp)⟩
  | succ n ih =>
    intro bs beta m hinv hbeta
    by_cases hgo : bs.cur.gameOver = true
    · exact ⟨none, evaluate_board bs.cur,
        minimax_gameOver_eval _ _ _ _ _ hgo,
        fun h2 _ => absurd hgo (by simp [h2])⟩
    · have hgo2 : bs.cur.gameOver = false := by
        simpa using hgo
      have hne := BoardInv.children_ne bs.cur hinv hgo2
      rcases hcs : bs.cur.children with _ | ⟨⟨move, t⟩, rest⟩
      · exact absurd hcs hne
      · have hchild : BoardInv t := by
          have := BoardInv.child bs.cur hinv (move, t)
          rw [hcs] at this
          exact this (by simp)
        cases m with
        | true =>
          obtain ⟨bm0, v0, hr, _⟩ :=
            ih (pushB bs t) beta false hchild hbeta
          have hle : XScore.le beta .negInf = false :=
            xs_le_negInf_eq_false beta hbeta
          refine ⟨some move, v0, ?_, fun _ _ => ⟨move, rfl⟩⟩
          simp only [minimax, hgo2, Bool.false_eq_true, ite_false,
            ite_true, hcs, maxLoopAux, hr, popB_pushB, hle,
            xs_negInf_lt_fin, if_true]
        | false =>
          obtain ⟨bm0, v0, hr, _⟩ :=
            ih (pushB bs t) beta true hchild hbeta
          have hmin : XScore.lt .negInf (XScore.min beta (.fin v0)) = true :=
            xs_min_fin_lt beta v0 hbeta
          have hle : XScore.le (XScore.min beta (.fin v0)) .negInf = false :=
            xs_le_negInf_eq_false _ hmin
          have hrest : ∀ p ∈ rest, BoardInv p.2 := by
            intro p hp
            have := BoardInv.child bs.cur hinv p
            rw [hcs] at this
            exact this (by simp [hp])
          obtain ⟨m2, v2, hloop⟩ :=
            minLoopAux_fin (fun b2 beta2 => minimax n b2 .negInf beta2 true)
              (fun b2 beta2 hb2 hbb => by
                obtain ⟨bm3, v3, he, _⟩ := ih b2 beta2 true hb2 hbb
                exact ⟨bm3, v3, he⟩)
              rest bs move v0 (XScore.min beta (.fin v0)) hrest hmin
          refine ⟨some m2, v2, ?_, fun _ _ => ⟨m2, rfl⟩⟩
          simp only [minimax, hgo2, Bool.false_eq_true, ite_false,
            ite_true, hcs, minLoopAux, hr, popB_pushB, hle,
            xs_fin_lt_posInf, if_true]
          exact hloop

/-- C1: the claim says a depth-1 maximizing search with the infinite
window returns the maximum of evaluate_board over all positions one
legal move away, never stopping after the first child.  The code does
the opposite: the return statement at src/bot.py line 105 is inside the
move loop, so on the concrete position exA (first move quiet, second
move wins a rook) the search returns the first move with score 0 while
the maximum over the one-move positions is 5.  The minimizing branch,
whose return sits after its loop, is not at fault here. -/
theorem C1_first_child_only :
    (minimax 1 ⟨exA, []⟩ .negInf .posInf true).2 = .ok (some "a1") (.fin 0) ∧
    (exA.children.map (fun c => XScore.fin (evaluate_board c.2))).foldl
      XScore.max .negInf = .fin 5 := by
  decide

/-- C2: the claim says pruning has no semantic effect, so minimax with
the infinite window agrees with brute-force minimax at depth up to 4.
On the concrete position exA at depth 1 the code returns the first move
with score 0 while brute-force minimax returns the second move with
score 5, because the maximizing branch returns inside its loop and the
alpha update at line 102 lands in the dead local variable alph. -/
theorem C2_not_bruteforce_equivalent :
    (minimax 1 ⟨exA, []⟩ .negInf .posInf true).2 = .ok (some "a1") (.fin 0) ∧
    brute_minimax 1 exA true = (some "a2", .fin 5) := by
  decide

/-- C3: the claim says next_move picks the root orientation from the
side to move.  The code passes is_maximizing = True unconditionally
(src/bot.py line 82): on the Black-to-move position exB it returns the
first move (which maximizes the White-oriented score at 3), whereas the
side-correct minimizing root returns the second move with score -3. -/
theorem C3_root_always_maximizes :
    exB.turn = false ∧ next_move exB = some "m1" ∧
    (minimax 4 ⟨exB, []⟩ .negInf .posInf false).2 =
      .ok (some "m2") (.fin (-3)) := by
  decide

/-- C4 counterexample: next_move performs no terminal check.  On the
already-terminal position exTerm, minimax returns (None, score), and
next_move crashes calling .uci() on None (modelled by the result none,
an unhandled AttributeError) instead of reporting a distinct caller
error. -/
theorem C4_counterexample :
    exTerm.gameOver = true ∧ next_move exTerm = none := by
  decide

/-- C4 amended: next_move never checks for a terminal position.  When
called on a game-over position the search returns no move and next_move
fails with an unhandled exception (result none); on every non-terminal
position of an invariant game tree it does return a move. -/
theorem C4_no_terminal_guard (t : Board) (hinv : BoardInv t) :
    (t.gameOver = true → next_move t = none) ∧
    (t.gameOver = false → ∃ mv, next_move t = some mv) := by
  constructor
  · intro hgo
    unfold next_move
    rw [minimax_gameOver_eval 4 ⟨t, []⟩ .negInf .posInf true hgo]
  · intro hgo
    obtain ⟨bm, v, heq, hsome⟩ :=
      minimax_negInf_ok 4 ⟨t, []⟩ .posInf true hinv rfl
    obtain ⟨mv, hmv⟩ := hsome hgo (by decide)
    refine ⟨mv, ?_⟩
    unfold next_move
    rw [heq, hmv]

/-- C4 witness: the amended statement instantiated at the concrete
terminal position exTerm. -/
theorem C4_no_terminal_guard_witness :
    (exTerm.gameOver = true → next_move exTerm = none) ∧
    (exTerm.gameOver = false → ∃ mv, next_move exTerm = some mv) :=
  C4_no_terminal_guard exTerm
    (by
      unfold exTerm
      exact BoardInv.node _ _ _ _ _ (fun h => by simp at h) (by simp))

/-- C5 counterexample: on the position exM, one ply from checkmate, the
sub-search score of the mating line is the material evaluation 0 of the
mated position (minimax hits its game-over base case), which is not
strictly better than the material score 5 of the non-mating line that
wins a rook, refuting the claimed terminal precedence. -/
theorem C5_counterexample :
    (minimax 3 ⟨mateChild, [exM]⟩ .negInf .posInf false).2 =
      .ok none (.fin 0) ∧
    evaluate_board winChild = 5 ∧
    XScore.lt (.fin 5) (.fin 0) = false := by
  decide

/-- C5 amended: at any game-over position (checkmate included) minimax
returns the plain material evaluation of that position at every depth,
alpha, beta and orientation, so a mating line backs up its final
material count rather than a decisive terminal score and is not
preferred over lines with better material. -/
theorem C5_terminal_scores_material (t : Board) (hist : List Board)
    (d : Nat) (alpha beta : XScore) (m : Bool) (h : t.gameOver = true) :
    minimax d ⟨t, hist⟩ alpha beta m =
      (⟨t, hist⟩, .ok none (.fin (evaluate_board t))) :=
  minimax_gameOver_eval d ⟨t, hist⟩ alpha beta m h

/-- C5 witness: the amended statement at the concrete terminal position
exTerm with depth 2. -/
theorem C5_terminal_scores_material_witness :
    minimax 2 ⟨exTerm, []⟩ .negInf .posInf true =
      (⟨exTerm, []⟩, .ok none (.fin (evaluate_board exTerm))) :=
  C5_terminal_scores_material exTerm [] 2 .negInf .posInf true rfl

/-- C6: evaluate_board is the pure material sum: for every position it
equals the sum over the six piece types of (white count minus black
count) times the fixed value table pawn=1, knight=3, bishop=3, rook=5,
queen=9, king=0. -/
theorem C6_material_sum (t : Board) :
    evaluate_board t =
      ((t.white.pawn : Int) - (t.black.pawn : Int)) * 1 +
      ((t.white.knight : Int) - (t.black.knight : Int)) * 3 +
      ((t.white.bishop : Int) - (t.black.bishop : Int)) * 3 +
      ((t.white.rook : Int) - (t.black.rook : Int)) * 5 +
      ((t.white.queen : Int) - (t.black.queen : Int)) * 9 +
      ((t.white.king : Int) - (t.black.king : Int)) * 0 := by
  cases t with
  | node w b tn go cs =>
    simp [evaluate_board, piece_values, piecesCount, Board.white,
      Board.black, PieceCounts.count, List.foldl]
    ring

/-- C7: whenever minimax returns (rather than letting an exception
escape), the borrowed board is in exactly the state it had on entry:
every board.push has been reversed by its matching board.pop in LIFO
order, on every path through the function, including the path that
breaks out of the loop and the return inside the maximizing loop. -/
theorem C7_board_restored (d : Nat) (bs : BState) (alpha beta : XScore)
    (m : Bool) (h : (minimax d bs alpha beta m).2 ≠ .exn) :
    (minimax d bs alpha beta m).1 = bs :=
  minimax_state d bs alpha beta m h

/-- C7 witness: the statement at a concrete position, depth and
window. -/
theorem C7_board_restored_witness :
    (minimax 1 ⟨exA, []⟩ .negInf .posInf true).2 ≠ .exn ∧
    (minimax 1 ⟨exA, []⟩ .negInf .posInf true).1 = ⟨exA, []⟩ :=
  ⟨by decide, C7_board_restored 1 ⟨exA, []⟩ .negInf .posInf true (by decide)⟩

/-- C8: from the standard starting position, a depth-1 maximizing search
with the infinite window returns score 0 and the first move of the
python-chess enumeration order, g1h3; the best move is only overwritten
on strict improvement (line 99 of src/bot.py compares with a strict
inequality), and every first move leaves material even, so each child
evaluates to 0. -/
theorem C8_depth1_start :
    (minimax 1 ⟨startBoard, []⟩ .negInf .posInf true).2 =
      .ok (some "g1h3") (.fin 0) ∧
    startBoard.children.head?.map Prod.fst = some "g1h3" ∧
    startBoard.children.all (fun c => evaluate_board c.2 == 0) = true := by
  decide

/-- C9 counterexample: check_move_is_legal does not return a boolean on
every origin/destination pair: on the pair x, y the concatenation xy is
not well-formed UCI, chess.Move.from_uci raises InvalidMoveError, and
the method propagates the exception (modelled by the result none)
instead of returning False. -/
theorem C9_counterexample :
    check_move_is_legal startBoard "x" "y" = none := by
  decide

/-- C9 amended: check_move_is_legal returns a boolean exactly when the
concatenated string parses as UCI, and that boolean is True exactly when
the parsed move is among the legal moves of the board; when the
concatenation does not parse, the InvalidMoveError from from_uci
propagates (result none). -/
theorem C9_parse_guarded (t : Board) (a b : String) :
    (from_uci (a ++ b) = none ∧ check_move_is_legal t a b = none) ∨
    (∃ mv, from_uci (a ++ b) = some mv ∧
      check_move_is_legal t a b = some ((legalMoves t).contains mv) ∧
      (check_move_is_legal t a b = some true ↔ mv ∈ legalMoves t)) := by
  rcases h : from_uci (a ++ b) with _ | mv
  · exact Or.inl ⟨rfl, by simp [check_move_is_legal, h]⟩
  · refine Or.inr ⟨mv, rfl, by simp [check_move_is_legal, h], ?_⟩
    simp [check_move_is_legal, h]

/-- C10: on an invariant game tree (every non-terminal node has a legal
move, as in chess), a non-terminal position searched at any depth of at
least 1 with the root window alpha = -inf, beta = +inf returns a move
that is not None together with a finite score, for either orientation;
hence the None branch at the caller is unreachable and the conversion of
the move to its UCI string in next_move is well defined. -/
theorem C10_search_returns_move (t : Board) (hist : List Board) (d : Nat)
    (mx : Bool) (hinv : BoardInv t) (hgo : t.gameOver = false) :
    ∃ mv v, minimax (d + 1) ⟨t, hist⟩ .negInf .posInf mx =
      (⟨t, hist⟩, .ok (some mv) (.fin v)) := by
  obtain ⟨bm, v, heq, hsome⟩ :=
    minimax_negInf_ok (d + 1) ⟨t, hist⟩ .posInf mx hinv rfl
  obtain ⟨mv, hmv⟩ := hsome hgo (Nat.succ_pos d)
  exact ⟨mv, v, by rw [← hmv]; exact heq⟩

/-- C10 witness: the statement at the concrete non-terminal position exW
with depth 1. -/
theorem C10_search_returns_move_witness :
    ∃ mv v, minimax (0 + 1) ⟨exW, []⟩ .negInf .posInf true =
      (⟨exW, []⟩, .ok (some mv) (.fin v)) :=
  C10_search_returns_move exW [] 0 true
    (by
      unfold exW
      refine BoardInv.node _ _ _ _ _ (fun _ => by simp) ?_
      intro p hp
      simp only [List.mem_singleton] at hp
      subst hp
      show BoardInv mateChild
      unfold mateChild
      exact BoardInv.node _ _ _ _ _ (fun h => by simp at h) (by simp))
    rfl
